import Mathlib

/-!
# Verification of the rusty-diary storage/synchronization core

Shallow embedding of the rusty-diary repository (Rust) into Lean 4.

Modelling conventions:
* `chrono::NaiveDate` is modelled as `Nat` (a day number).  SQLite stores
  dates as ISO `YYYY-MM-DD` text, on which `BETWEEN` is lexicographic
  comparison; that order is the calendar order, so `Nat` with `≤` is a
  faithful model of the stored date column.
* `chrono::NaiveDateTime` timestamps are modelled as `Nat`; the ambient
  clock (`chrono::Local::now()`) is made an explicit `now` parameter.
* `i64` exec versions are modelled as `Int` (no computation here can
  overflow an `i64`: versions only grow by `+ 1` per run).
* The SQLite tables `diary_entries` and `entry_metadata` are modelled as
  lists of rows; `INSERT OR REPLACE` on the `(exec_version, date)` primary
  key and the `ON DELETE CASCADE` foreign key are modelled explicitly in
  `store_entry_internal`.
* Fallible Rust code returns `Except RustyDiaryError`; the `unwrap` calls
  in `RustyDiary::synchronize` are modelled by a `panicked` outcome.
* The `regex` crate match in `DiaryEntry::new` is modelled by a small
  backtracking matcher (`reMatches`) over a regex syntax tree
  (`Re`), with leftmost-first (Perl-style) priority — the semantics of the
  `regex` crate — and a fuel argument that strictly exceeds the depth of
  the backtracking search for the inputs considered.
-/

/-- Unicode `White_Space` predicate: Rust's `char::is_whitespace` and the
`regex` crate's `\s` class both denote exactly this set of code points. -/
def rustIsWhitespace (c : Char) : Bool :=
  (0x09 ≤ c.val && c.val ≤ 0x0D) || c.val = 0x20 || c.val = 0x85 ||
  c.val = 0xA0 || c.val = 0x1680 || (0x2000 ≤ c.val && c.val ≤ 0x200A) ||
  c.val = 0x2028 || c.val = 0x2029 || c.val = 0x202F || c.val = 0x205F ||
  c.val = 0x3000

/-- Rust `str::trim`: remove leading and trailing Unicode whitespace. -/
def rustTrim (s : String) : String :=
  String.mk (((s.data.dropWhile rustIsWhitespace).reverse.dropWhile
    rustIsWhitespace).reverse)

/-- Split a character list at every `'\n'` (the separators are dropped). -/
def splitOnNl : List Char → List (List Char)
  | [] => [[]]
  | c :: t =>
    if c = '\n' then [] :: splitOnNl t
    else
      match splitOnNl t with
      | [] => [[c]]
      | p :: ps => (c :: p) :: ps

/-- Rust `str::lines`: split at `\n`, drop the final empty piece produced
by a trailing `\n`, and strip one trailing `\r` from each line. -/
def rustLines (s : List Char) : List (List Char) :=
  let parts := splitOnNl s
  let parts :=
    match parts.getLast? with
    | some [] => parts.dropLast
    | _ => parts
  parts.map (fun l =>
    match l.getLast? with
    | some '\r' => l.dropLast
    | _ => l)

/-- Join lines with `'\n'` (Rust `Vec::join("\n")`). -/
def joinLinesNl : List (List Char) → List Char
  | [] => []
  | [l] => l
  | l :: ls => l ++ '\n' :: joinLinesNl ls

/-- Rust `str::split_whitespace().count()`: the number of maximal runs of
non-whitespace characters, computed by counting run starts. -/
def splitWhitespaceCount (s : String) : Nat :=
  (s.data.foldl
    (fun (acc : Nat × Bool) c =>
      if rustIsWhitespace c then (acc.1, false)
      else if acc.2 then acc else (acc.1 + 1, true))
    (0, false)).1

/-- Syntax of the regex fragment used by `DiaryEntry::new` (with the `(?s)`
dot-matches-newline flag): character classes, sequencing, greedy and lazy
Kleene star, and greedy option. -/
inductive Re where
  | eps : Re
  | cls (p : Char → Bool) : Re
  | seq (a b : Re) : Re
  | starG (a : Re) : Re
  | starL (a : Re) : Re
  | optG (a : Re) : Re

/-- Node count of a regex, used to bound the backtracking depth. -/
def Re.size : Re → Nat
  | .eps => 1
  | .cls _ => 1
  | .seq a b => a.size + b.size + 1
  | .starG a => a.size + 1
  | .starL a => a.size + 1
  | .optG a => a.size + 1

/-- Backtracking matcher.  `reMatches f re s` returns the suffixes of `s`
remaining after `re` matches some prefix, in backtracking priority order:
the head is the alternative a leftmost-first (Perl-style) engine commits
to, which is the semantics of Rust's `regex` crate.  Star iterations are
required to consume input (the engine's empty-iteration rule), so each
unfolding shortens the input; `f` bounds the recursion depth and is
decremented on every call, with `reFuel` chosen strictly larger than any
reachable depth. -/
def reMatches : Nat → Re → List Char → List (List Char)
  | 0, _, _ => []
  | f + 1, re, s =>
    match re, s with
    | .eps, s => [s]
    | .cls _, [] => []
    | .cls p, c :: t => if p c then [t] else []
    | .seq a b, s => (reMatches f a s).flatMap (fun t => reMatches f b t)
    | .optG a, s => reMatches f a s ++ [s]
    | .starG a, s =>
        ((reMatches f a s).filter (fun t => t.length < s.length)).flatMap
          (fun t => reMatches f (.starG a) t) ++ [s]
    | .starL a, s =>
        s :: ((reMatches f a s).filter (fun t => t.length < s.length)).flatMap
          (fun t => reMatches f (.starL a) t)

/-- Fuel that exceeds the backtracking depth: along any search path the
regex component shrinks between star unfoldings and every star unfolding
consumes at least one input character, so the depth is below
`(size + 1) * (length + 2)`. -/
def reFuel (re : Re) (s : List Char) : Nat :=
  (re.size + 1) * (s.length + 2)

/-- Literal string as a regex. -/
def Re.lit : List Char → Re
  | [] => .eps
  | c :: cs => .seq (.cls (fun x => x == c)) (Re.lit cs)

/-- `\s*` (greedy). -/
def reWsStar : Re := .starG (.cls rustIsWhitespace)

/-- `(?:.*\n)*?` under `(?s)`: lazy star of (greedy dot-star, newline). -/
def reLinesLazy : Re :=
  .starL (.seq (.starG (.cls (fun _ => true))) (.cls (fun c => c == '\n')))

/-- `(?:date:\s*[^\n]+\n)?` (greedy option). -/
def reDateOpt : Re :=
  .optG (.seq (Re.lit "date:".data)
    (.seq reWsStar
      (.seq (.seq (.cls (fun c => !(c == '\n'))) (.starG (.cls (fun c => !(c == '\n')))))
        (.cls (fun c => c == '\n')))))

/-- The front-matter pattern of `DiaryEntry::new`:
`(?s)\A---\s*(?:.*\n)*?tags:\s*(?:.*\n)*?(?:date:\s*[^\n]+\n)?(?:.*\n)*?---\s*`.
`\A` anchoring is inherent: the matcher only matches prefixes. -/
def metadataPattern : Re :=
  .seq (Re.lit "---".data)
    (.seq reWsStar
      (.seq reLinesLazy
        (.seq (Re.lit "tags:".data)
          (.seq reWsStar
            (.seq reLinesLazy
              (.seq reDateOpt
                (.seq reLinesLazy
                  (.seq (Re.lit "---".data) reWsStar))))))))

/-- `metadata_pattern.replace(&content, "")`: the pattern is anchored at the
start, so the first (leftmost-first) match, if any, is a prefix, and
replacing it by the empty string drops that prefix. -/
def stripMetadata (s : String) : String :=
  match reMatches (reFuel metadataPattern s.data) metadataPattern s.data with
  | [] => s
  | rest :: _ => String.mk rest

/-- `src/storage/models.rs`: the `diary_entries` row / domain object. -/
structure DiaryEntry where
  exec_version : Int
  date : Nat
  content : String
  created_at : Nat
  updated_at : Option Nat
deriving DecidableEq, Repr

/-- `src/storage/models.rs`: derived metadata. -/
structure EntryMetadata where
  date : Nat
  word_count : Nat
  exec_version : Int
deriving DecidableEq, Repr

/-- `DiaryEntry::new`: strip the front-matter block, re-join the lines with
`\n` (Rust `lines().collect().join("\n")`), and stamp both timestamps with
the current time (`now`, the explicit clock). -/
def DiaryEntry.new (exec_version : Int) (date : Nat) (content : String)
    (now : Nat) : DiaryEntry :=
  { exec_version := exec_version
    date := date
    content := String.mk (joinLinesNl (rustLines (stripMetadata content).data))
    created_at := now
    updated_at := some now }

/-- `DiaryEntry::eq`: the deduplication equality — `(date, content)` only. -/
def DiaryEntry.eqDedup (a b : DiaryEntry) : Bool :=
  a.date == b.date && a.content == b.content

/-- `DiaryEntry::word_count`: `self.content.split_whitespace().count()`. -/
def DiaryEntry.word_count (e : DiaryEntry) : Nat :=
  splitWhitespaceCount e.content

/-- `DiaryEntry::metadata`. -/
def DiaryEntry.metadata (e : DiaryEntry) : EntryMetadata :=
  { date := e.date, word_count := e.word_count, exec_version := e.exec_version }

/-- A row of the `entry_metadata` table (the `entry_id` rowid primary key is
auto-assigned and never read back, so it is not modelled). -/
structure MetaRow where
  exec_version : Int
  date : Nat
  word_count : Nat
deriving DecidableEq, Repr

/-- The persistent store: the `diary_entries` and `entry_metadata` tables. -/
structure Store where
  rows : List DiaryEntry
  meta : List MetaRow
deriving DecidableEq, Repr

/-- `src/error.rs`: the error enumeration (payloads irrelevant to the
claims are dropped; the `ContentIntegrity` message is kept). -/
inductive RustyDiaryError where
  | Io : RustyDiaryError
  | Database : RustyDiaryError
  | DateParse : RustyDiaryError
  | InvalidDirectory : RustyDiaryError
  | InvalidPattern : RustyDiaryError
  | NoFilesFound : RustyDiaryError
  | ContentIntegrity (msg : String) : RustyDiaryError
deriving DecidableEq, Repr

/-- Key equality on the `(exec_version, date)` primary key. -/
def sameKey (e : DiaryEntry) (r : DiaryEntry) : Bool :=
  r.exec_version == e.exec_version && r.date == e.date

/-- Key equality between an entry and a metadata row. -/
def sameKeyMeta (e : DiaryEntry) (m : MetaRow) : Bool :=
  m.exec_version == e.exec_version && m.date == e.date

/-- `DiaryRepository::store_entry_internal`: `INSERT OR REPLACE` the entry
row keyed by `(exec_version, date)`, then `INSERT OR REPLACE` a metadata
row.  When the entry insert replaces an existing row, SQLite deletes the
conflicting row first and, with `foreign_keys = ON`, the
`ON DELETE CASCADE` clause deletes its dependent `entry_metadata` rows.
The metadata insert itself never conflicts: its declared primary key is
the auto-assigned `entry_id` rowid. -/
def store_entry_internal (st : Store) (e : DiaryEntry) : Store :=
  let hadRow := st.rows.any (sameKey e)
  { rows := st.rows.filter (fun r => !(sameKey e r)) ++ [e]
    meta := (if hadRow then st.meta.filter (fun m => !(sameKeyMeta e m)) else st.meta)
      ++ [{ exec_version := e.exec_version, date := e.date, word_count := e.word_count }] }

/-- `DiaryRepository::store_batch`: one transaction inserting every entry
in order, then commit.  `failAt` is an error-injection oracle modelling a
failing insert (a `rusqlite` error at index `i` of the batch): the `?`
propagation drops the open `Transaction`, which rolls the whole
transaction back, so the store is left unchanged and the error is
returned.  With no injected failure the fold of all inserts commits. -/
def store_batch (st : Store) (entries : List DiaryEntry) (failAt : Option Nat) :
    Except RustyDiaryError Store :=
  match failAt with
  | some i =>
      if i < entries.length then .error .Database
      else .ok (entries.foldl store_entry_internal st)
  | none => .ok (entries.foldl store_entry_internal st)

/-- `DiaryRepository::get_entries_by_date_range`:
`WHERE date BETWEEN ?1 AND ?2 ORDER BY date DESC, exec_version DESC`. -/
def rangeOrder (a b : DiaryEntry) : Bool :=
  b.date < a.date || (b.date == a.date && b.exec_version ≤ a.exec_version)

/-- Insertion into a sorted list (model of the ORDER BY clause). -/
def sortedInsert (le : DiaryEntry → DiaryEntry → Bool) (x : DiaryEntry) :
    List DiaryEntry → List DiaryEntry
  | [] => [x]
  | y :: ys => if le x y then x :: y :: ys else y :: sortedInsert le x ys

/-- Sorting by repeated insertion (model of the ORDER BY clause). -/
def insertionSort (le : DiaryEntry → DiaryEntry → Bool)
    (l : List DiaryEntry) : List DiaryEntry :=
  l.foldr (sortedInsert le) []

/-- `DiaryRepository::get_entries_by_date_range`. -/
def entries_by_date_range (st : Store) (start_date end_date : Nat) :
    List DiaryEntry :=
  insertionSort rangeOrder
    (st.rows.filter (fun e => start_date ≤ e.date && e.date ≤ end_date))

/-- `DiaryRepository::get_latest_exec_version`:
`SELECT COALESCE(MAX(exec_version), 0)` — `0` only when the table is
empty, otherwise the maximum. -/
def get_latest_exec_version (st : Store) : Int :=
  match st.rows.map (fun r => r.exec_version) with
  | [] => 0
  | v :: vs => vs.foldl max v

/-- `StorageManager::validate_entry`: reject whitespace-only content. -/
def validate_entry (e : DiaryEntry) : Bool :=
  rustTrim e.content == ""

/-- `StorageManager::store_entries`: validate every entry first (the loop
stops at the first invalid entry with a `ContentIntegrity` error, before
`store_batch` is reached), then delegate to `store_batch`.  The second
component records the argument of each `store_batch` invocation. -/
def store_entries (st : Store) (entries : List DiaryEntry) (failAt : Option Nat) :
    Except RustyDiaryError Store × List (List DiaryEntry) :=
  match entries.find? validate_entry with
  | some _ => (.error (.ContentIntegrity "Empty content"), [])
  | none => (store_batch st entries failAt, [entries])

/-- A source file as the synchronization engine sees it, after the
directory walk: the outcome of `MarkdownProcessor::extract_date` on its
name (`none` models a pattern mismatch or date-parse failure) and the
outcome of `fs::read_to_string` (`none` models an IO error). -/
structure SourceFile where
  name_date : Option Nat
  raw : Option String
deriving DecidableEq, Repr

/-- `FileRepository::process_single_file`: read the file, run
`MarkdownProcessor::validate_content` (reject whitespace-only raw text),
extract the date from the filename, and construct the entry.  `none` is
any of the per-file errors. -/
def process_single_file (f : SourceFile) (exec_version : Int) (now : Nat) :
    Option DiaryEntry :=
  match f.raw with
  | none => none
  | some content =>
    if rustTrim content == "" then none
    else
      match f.name_date with
      | none => none
      | some date => some (DiaryEntry.new exec_version date content now)

/-- `FileRepository::process_files`: the successfully materialized entries
in file order; failures go to the side list (second component), which is
logged and otherwise ignored. -/
def process_files (files : List SourceFile) (exec_version : Int) (now : Nat) :
    List DiaryEntry × List SourceFile :=
  (files.filterMap (fun f => process_single_file f exec_version now),
   files.filter (fun f => (process_single_file f exec_version now).isNone))

/-- Outcome of one `RustyDiary::synchronize` call: the returned value, an
error, or a Rust panic (the `unwrap` calls on lines 39-40 of
`src/diary/mod.rs`). -/
inductive SyncResult where
  | ok (span : Nat × Nat) : SyncResult
  | err (e : RustyDiaryError) : SyncResult
  | panicked : SyncResult
deriving DecidableEq, Repr

/-- One synchronization run: its result, the store it leaves behind, and
the argument of every `DiaryRepository::store_batch` invocation it made. -/
structure SyncOutcome where
  result : SyncResult
  store : Store
  batchCalls : List (List DiaryEntry)
deriving DecidableEq, Repr

/-- `RustyDiary::synchronize`.  The directory walk is the external
collaborator: `files` is the sequence `collect_diary_files` yields, in
walk order (`WalkDir` without sorting — the order is not specified);
`collect_diary_files` errors with `NoFilesFound` when it is empty.  Then:
next version, materialization, `start_date = file_entries.last().date` and
`end_date = file_entries.first().date` (panicking `unwrap`s when the
materialized list is empty), overlap fetch, `(date, content)`
deduplication, and `StorageManager::store_entries` on the survivors.
`cleanup_files` only touches the filesystem and never errors, so it does
not appear in the store model. -/
def synchronize (files : List SourceFile) (st : Store) (now : Nat) :
    SyncOutcome :=
  if files.isEmpty then ⟨.err .NoFilesFound, st, []⟩
  else
    let exec_version := get_latest_exec_version st + 1
    let file_entries := (process_files files exec_version now).1
    match file_entries.getLast?, file_entries.head? with
    | some lastE, some firstE =>
      let start_date := lastE.date
      let end_date := firstE.date
      let stored_entries := entries_by_date_range st start_date end_date
      let new_entries := file_entries.filter (fun e =>
        !(stored_entries.any (fun se => se.date == e.date && se.content == e.content)))
      match store_entries st new_entries none with
      | (.error e, calls) => ⟨.err e, st, calls⟩
      | (.ok st', calls) => ⟨.ok (start_date, end_date), st', calls⟩
    | _, _ => ⟨.panicked, st, []⟩

/-! ## Supporting lemmas -/

theorem mem_sortedInsert (le : DiaryEntry → DiaryEntry → Bool) (x a : DiaryEntry) :
    ∀ l : List DiaryEntry, a ∈ sortedInsert le x l ↔ a = x ∨ a ∈ l := by
  intro l
  induction l with
  | nil => simp [sortedInsert]
  | cons y ys ih =>
    simp only [sortedInsert]
    by_cases h : le x y = true
    · simp [h]
    · simp only [if_neg h, List.mem_cons, ih]
      tauto

theorem mem_insertionSort (le : DiaryEntry → DiaryEntry → Bool)
    (l : List DiaryEntry) (a : DiaryEntry) :
    a ∈ insertionSort le l ↔ a ∈ l := by
  induction l with
  | nil => simp [insertionSort]
  | cons y ys ih =>
    simp only [insertionSort, List.foldr] at ih ⊢
    rw [mem_sortedInsert, ih, List.mem_cons]

theorem mem_entries_by_date_range (st : Store) (a b : Nat) (e : DiaryEntry) :
    e ∈ entries_by_date_range st a b ↔ e ∈ st.rows ∧ a ≤ e.date ∧ e.date ≤ b := by
  unfold entries_by_date_range
  rw [mem_insertionSort, List.mem_filter]
  simp

theorem mem_rows_store_entry_internal (st : Store) (e : DiaryEntry) :
    e ∈ (store_entry_internal st e).rows := by
  simp [store_entry_internal]

theorem mem_rows_store_entry_internal_of_mem (st : Store) (e r : DiaryEntry)
    (hr : r ∈ st.rows) (hk : sameKey e r = false) :
    r ∈ (store_entry_internal st e).rows := by
  simp only [store_entry_internal, List.mem_append, List.mem_filter]
  exact Or.inl ⟨hr, by simp [hk]⟩

theorem rows_foldl_preserve (l : List DiaryEntry) :
    ∀ (st : Store) (r : DiaryEntry), r ∈ st.rows →
      (∀ b ∈ l, sameKey b r = false) →
      r ∈ (l.foldl store_entry_internal st).rows := by
  induction l with
  | nil => intro st r hr _; exact hr
  | cons b bs ih =>
    intro st r hr hk
    simp only [List.foldl_cons]
    exact ih _ r (mem_rows_store_entry_internal_of_mem st b r hr
      (hk b (List.mem_cons_self b bs))) (fun x hx => hk x (List.mem_cons_of_mem b hx))

theorem sameKey_eq_false_of_ne (b r : DiaryEntry)
    (h : ¬(r.exec_version = b.exec_version ∧ r.date = b.date)) :
    sameKey b r = false := by
  simp only [sameKey, Bool.and_eq_false_iff, beq_eq_false_iff_ne, ne_eq]
  tauto

theorem rows_foldl_mem (l : List DiaryEntry) :
    ∀ (st : Store) (e : DiaryEntry), e ∈ l →
      l.Pairwise (fun a b => ¬(a.exec_version = b.exec_version ∧ a.date = b.date)) →
      e ∈ (l.foldl store_entry_internal st).rows := by
  induction l with
  | nil => intro st e he; cases he
  | cons b bs ih =>
    intro st e he hp
    rcases List.pairwise_cons.mp hp with ⟨hb, hbs⟩
    simp only [List.foldl_cons]
    rcases List.mem_cons.mp he with rfl | he'
    · exact rows_foldl_preserve bs _ e (mem_rows_store_entry_internal st e)
        (fun x hx => by
          have := hb x hx
          exact sameKey_eq_false_of_ne x e (by tauto))
    · exact ih _ e he' hbs

theorem rows_foldl_subset (l : List DiaryEntry) :
    ∀ (st : Store) (r : DiaryEntry),
      r ∈ (l.foldl store_entry_internal st).rows → r ∈ st.rows ∨ r ∈ l := by
  induction l with
  | nil => intro st r h; exact Or.inl h
  | cons b bs ih =>
    intro st r h
    simp only [List.foldl_cons] at h
    rcases ih _ r h with h' | h'
    · simp only [store_entry_internal, List.mem_append, List.mem_filter] at h'
      rcases h' with ⟨hr, _⟩ | hr
      · exact Or.inl hr
      · simp only [List.mem_singleton] at hr
        exact Or.inr (hr ▸ List.mem_cons_self b bs)
    · exact Or.inr (List.mem_cons_of_mem b h')

theorem getLast_mem_rows_foldl (l : List DiaryEntry) (st : Store) (h : l ≠ []) :
    l.getLast h ∈ (l.foldl store_entry_internal st).rows := by
  have hsplit : l = l.dropLast ++ [l.getLast h] := (List.dropLast_append_getLast h).symm
  have hfold : List.foldl store_entry_internal st l =
      store_entry_internal (List.foldl store_entry_internal st l.dropLast) (l.getLast h) := by
    conv_lhs => rw [hsplit]
    rw [List.foldl_append]
    rfl
  rw [hfold]
  exact mem_rows_store_entry_internal _ _

theorem le_foldl_max (vs : List Int) : ∀ v : Int, v ≤ vs.foldl max v := by
  induction vs with
  | nil => intro v; exact le_refl v
  | cons w ws ih =>
    intro v
    simp only [List.foldl_cons]
    exact le_trans (le_max_left v w) (ih (max v w))

theorem mem_le_foldl_max (vs : List Int) :
    ∀ (v a : Int), a ∈ vs → a ≤ vs.foldl max v := by
  induction vs with
  | nil => intro v a h; cases h
  | cons w ws ih =>
    intro v a h
    simp only [List.foldl_cons]
    rcases List.mem_cons.mp h with rfl | h'
    · exact le_trans (le_max_right v a) (le_foldl_max ws (max v a))
    · exact ih (max v w) a h'

theorem foldl_max_cases (vs : List Int) :
    ∀ v : Int, vs.foldl max v = v ∨ vs.foldl max v ∈ vs := by
  induction vs with
  | nil => intro v; exact Or.inl rfl
  | cons w ws ih =>
    intro v
    simp only [List.foldl_cons]
    rcases ih (max v w) with h | h
    · rcases max_choice v w with hm | hm
      · exact Or.inl (by rw [h, hm])
      · refine Or.inr ?_
        rw [h, hm]
        exact List.mem_cons_self w ws
    · exact Or.inr (List.mem_cons_of_mem w h)

theorem latest_ge (st : Store) (r : DiaryEntry) (hr : r ∈ st.rows) :
    r.exec_version ≤ get_latest_exec_version st := by
  unfold get_latest_exec_version
  cases hst : st.rows.map (fun r => r.exec_version) with
  | nil =>
    have hnil : st.rows = [] := List.map_eq_nil_iff.mp hst
    rw [hnil] at hr
    cases hr
  | cons v vs =>
    have hmem : r.exec_version ∈ st.rows.map (fun r => r.exec_version) :=
      List.mem_map_of_mem _ hr
    rw [hst] at hmem
    rcases List.mem_cons.mp hmem with h | h
    · exact h ▸ le_foldl_max vs v
    · exact mem_le_foldl_max vs v _ h

theorem latest_attained (st : Store) (h : st.rows ≠ []) :
    ∃ r ∈ st.rows, r.exec_version = get_latest_exec_version st := by
  unfold get_latest_exec_version
  cases hst : st.rows.map (fun r => r.exec_version) with
  | nil =>
    exact absurd (List.map_eq_nil_iff.mp hst) h
  | cons v vs =>
    have hmem : vs.foldl max v ∈ v :: vs := by
      rcases foldl_max_cases vs v with h' | h'
      · rw [h']; exact List.mem_cons_self v vs
      · exact List.mem_cons_of_mem v h'
    rw [← hst] at hmem
    rcases List.mem_map.mp hmem with ⟨r, hr, hr'⟩
    exact ⟨r, hr, hr'⟩

theorem process_single_file_version (f : SourceFile) (v : Int) (now : Nat)
    (e : DiaryEntry) (h : process_single_file f v now = some e) :
    e.exec_version = v := by
  unfold process_single_file at h
  split at h
  · cases h
  · split at h
    · cases h
    · split at h
      · cases h
      · cases h
        rfl

theorem process_files_version (files : List SourceFile) (v : Int) (now : Nat)
    (e : DiaryEntry) (h : e ∈ (process_files files v now).1) :
    e.exec_version = v := by
  simp only [process_files, List.mem_filterMap] at h
  rcases h with ⟨f, _, hf⟩
  exact process_single_file_version f v now e hf

/-! ## Claim theorems -/

/-- C7: when the filesystem collaborator yields an empty sequence of source
files, `synchronize()` fails with the empty-collection error (the spec's
`NoSourceFound`, named `NoFilesFound` in `src/error.rs`) before any
version computation or write occurs: the store is untouched, no
`store_batch` call is made, and `latest_exec_version()` is unchanged. -/
theorem C7_empty_collection_is_error (st : Store) (now : Nat) :
    synchronize [] st now = ⟨.err .NoFilesFound, st, []⟩ ∧
    get_latest_exec_version (synchronize [] st now).store =
      get_latest_exec_version st := by
  exact ⟨rfl, rfl⟩

/-- C10 (implicit): when the collaborator yields a non-empty file
collection but every collected file fails materialization, `synchronize()`
panics at the `unwrap` calls on the first/last elements of the empty
materialized-entry list (`src/diary/mod.rs` lines 39-40) instead of
returning a typed error; the store is untouched. -/
theorem C10_all_failed_materialization_panics (files : List SourceFile)
    (st : Store) (now : Nat) (hne : files ≠ [])
    (hall : ∀ f ∈ files,
      process_single_file f (get_latest_exec_version st + 1) now = none) :
    synchronize files st now = ⟨.panicked, st, []⟩ := by
  have hfe : files.isEmpty = false := by
    cases files with
    | nil => exact absurd rfl hne
    | cons a t => rfl
  have h1 : (process_files files (get_latest_exec_version st + 1) now).1 = [] := by
    simp only [process_files]
    exact List.filterMap_eq_nil_iff.mpr hall
  simp only [synchronize, hfe, Bool.false_eq_true, if_false, h1,
    List.getLast?_nil, List.head?_nil]

/-- Witness for C10 at a concrete input: one file whose read fails. -/
theorem C10_witness :
    ([(⟨none, none⟩ : SourceFile)] ≠ []) ∧
    synchronize [⟨none, none⟩] ⟨[], []⟩ 5 = ⟨.panicked, ⟨[], []⟩, []⟩ :=
  ⟨by decide, C10_all_failed_materialization_panics [⟨none, none⟩] ⟨[], []⟩ 5
    (by decide) (by decide)⟩

/-- The claim's reading of normalization, for comparison: remove exactly
one leading line (everything up to and including the first newline) from
the raw text. -/
def claimStripOneLeadingLine (s : String) : String :=
  String.mk ((s.data.dropWhile (fun c => !(c == '\n'))).drop 1)

/-- C5 counterexample: on the front-matter input
`"---\ntags: a\n---\nbody"` the constructor strips the whole three-line
front-matter block (leaving `"body"`), not exactly one leading line (which
would leave `"tags: a\n---\nbody"`). -/
theorem C5_counterexample :
    (DiaryEntry.new 1 0 "---\ntags: a\n---\nbody" 7).content = "body" ∧
    claimStripOneLeadingLine "---\ntags: a\n---\nbody" = "tags: a\n---\nbody" ∧
    ("body" : String) ≠ "tags: a\n---\nbody" := by
  refine ⟨by decide, by decide, by decide⟩

set_option maxRecDepth 8192 in
/-- C5 (amended): constructing a `DiaryEntry` from
`(exec_version, date, raw_content)` strips a leading YAML front-matter
block (delimited `---` lines containing a `tags:` field) — possibly
spanning several lines, and nothing at all when no such block is present —
rather than exactly one leading line; it re-joins the remaining lines with
`\n`; it sets `created_at = updated_at = now`; performed once, at
construction; and the constructor is a total function (never errors). -/
theorem C5_amended_normalization :
    (∀ (v : Int) (d : Nat) (c : String) (now : Nat),
        (DiaryEntry.new v d c now).created_at = now ∧
        (DiaryEntry.new v d c now).updated_at = some now ∧
        (DiaryEntry.new v d c now).exec_version = v ∧
        (DiaryEntry.new v d c now).date = d) ∧
    (DiaryEntry.new 1 0 "---\ntags: a\n---\nbody" 7).content = "body" ∧
    (DiaryEntry.new 1 0 "Some diary content" 7).content = "Some diary content" ∧
    (DiaryEntry.new 1 0 "---\ntags:\n  - reflections\ndate: 2025-06-07\n---\n##Actual content here" 7).content
      = "##Actual content here" := by
  refine ⟨fun v d c now => ⟨rfl, rfl, rfl, rfl⟩, by decide, by decide, by decide⟩

set_option maxRecDepth 8192 in
/-- C1 (code bug): with the fixed set of source files
`{2024-01-01.md ↦ "a", 2024-01-02.md ↦ "b"}` yielded by the directory walk
in ascending date order (dates modelled as 1 and 2; `WalkDir` without
`sort_by` specifies no order, unlike the descending sort in the
predecessor implementation in `src/main.rs`), the first run stores both
entries, and the second run — with no file changes — stores both AGAIN:
`start_date`/`end_date` are taken from the last/first materialized entry,
so the overlap query is `BETWEEN 2 AND 1`, an empty span, and the
deduplication set is empty.  `entries_by_date_range` over the full span
returns 2 rows after run one and 4 rows after run two, violating the
claimed idempotence. -/
theorem C1_second_run_inserts_duplicates :
    (entries_by_date_range
      (synchronize [⟨some 1, some "a"⟩, ⟨some 2, some "b"⟩] ⟨[], []⟩ 5).store
      1 2).length = 2 ∧
    (entries_by_date_range
      (synchronize [⟨some 1, some "a"⟩, ⟨some 2, some "b"⟩]
        (synchronize [⟨some 1, some "a"⟩, ⟨some 2, some "b"⟩] ⟨[], []⟩ 5).store
        6).store
      1 2).length = 4 := by
  refine ⟨by decide, by decide⟩

/-- C4 (code bug): for the same ascending-order yield, the materialized
dates are {1, 2} with minimum 1 and maximum 2, yet `synchronize()` returns
`(2, 1)` — `(last.date, first.date)` in collection order, which is
`(max, min)`, not the claimed `(min, max)` — and the overlap fetch
correspondingly queried the empty span `BETWEEN 2 AND 1` instead of the
inclusive span from 1 to 2. -/
theorem C4_span_depends_on_collection_order :
    (synchronize [⟨some 1, some "a"⟩, ⟨some 2, some "b"⟩] ⟨[], []⟩ 5).result
      = .ok (2, 1) ∧
    ((2, 1) : Nat × Nat) ≠ (1, 2) ∧
    entries_by_date_range
      (synchronize [⟨some 1, some "a"⟩, ⟨some 2, some "b"⟩] ⟨[], []⟩ 5).store
      2 1 = [] := by
  refine ⟨by decide, by decide, by decide⟩

/-- Forward computation of `synchronize` once the collection is non-empty
and the materialized list has known first/last elements. -/
theorem synchronize_eq (files : List SourceFile) (st : Store) (now : Nat)
    (ents : List DiaryEntry) (lastE firstE : DiaryEntry)
    (hfe : files.isEmpty = false)
    (hents : (process_files files (get_latest_exec_version st + 1) now).1 = ents)
    (hlast : ents.getLast? = some lastE) (hfirst : ents.head? = some firstE) :
    synchronize files st now =
      (match store_entries st (ents.filter (fun e =>
          !((entries_by_date_range st lastE.date firstE.date).any
            (fun se => se.date == e.date && se.content == e.content)))) none with
       | (.error e, calls) => ⟨.err e, st, calls⟩
       | (.ok st', calls) => ⟨.ok (lastE.date, firstE.date), st', calls⟩) := by
  simp only [synchronize, hfe, Bool.false_eq_true, if_false, hents, hlast, hfirst]

/-- C8 counterexample: a run in which every materialized entry is a
duplicate of a stored `(date, content)` pair does NOT skip the store call:
`StorageManager::store_entries` and `DiaryRepository::store_batch` are
invoked with the empty vector (the recorded `store_batch` argument list is
`[[]]`, not `[]`), opening and committing an empty transaction.  The run
still succeeds. -/
theorem C8_counterexample :
    (synchronize [⟨some 5, some "x"⟩]
        ⟨[⟨1, 5, "x", 0, some 0⟩], [⟨1, 5, 1⟩]⟩ 9).batchCalls = [[]] ∧
    (synchronize [⟨some 5, some "x"⟩]
        ⟨[⟨1, 5, "x", 0, some 0⟩], [⟨1, 5, 1⟩]⟩ 9).result = .ok (5, 5) := by
  refine ⟨by decide, by decide⟩

/-- C8 (amended): when deduplication leaves no surviving entries,
`synchronize()` still calls `store_entries`/`store_batch`, passing the
empty vector; the resulting transaction is empty, commits successfully,
changes nothing in the store, and the run completes without error. -/
theorem C8_amended_empty_batch_still_stored (files : List SourceFile)
    (st : Store) (now : Nat) (ents : List DiaryEntry) (lastE firstE : DiaryEntry)
    (hfe : files.isEmpty = false)
    (hents : (process_files files (get_latest_exec_version st + 1) now).1 = ents)
    (hlast : ents.getLast? = some lastE) (hfirst : ents.head? = some firstE)
    (hdup : ∀ e ∈ ents, (entries_by_date_range st lastE.date firstE.date).any
        (fun se => se.date == e.date && se.content == e.content) = true) :
    synchronize files st now = ⟨.ok (lastE.date, firstE.date), st, [[]]⟩ := by
  rw [synchronize_eq files st now ents lastE firstE hfe hents hlast hfirst]
  have hnil : ents.filter (fun e =>
      !((entries_by_date_range st lastE.date firstE.date).any
        (fun se => se.date == e.date && se.content == e.content))) = [] := by
    rw [List.filter_eq_nil_iff]
    intro e he
    simp [hdup e he]
  rw [hnil]
  rfl

/-- Witness for C8 (amended) at the concrete all-duplicate input. -/
theorem C8_amended_witness :
    synchronize [⟨some 5, some "x"⟩]
        ⟨[⟨1, 5, "x", 0, some 0⟩], [⟨1, 5, 1⟩]⟩ 9 =
      ⟨.ok (5, 5), ⟨[⟨1, 5, "x", 0, some 0⟩], [⟨1, 5, 1⟩]⟩, [[]]⟩ :=
  C8_amended_empty_batch_still_stored [⟨some 5, some "x"⟩]
    ⟨[⟨1, 5, "x", 0, some 0⟩], [⟨1, 5, 1⟩]⟩ 9
    [DiaryEntry.new 2 5 "x" 9] (DiaryEntry.new 2 5 "x" 9) (DiaryEntry.new 2 5 "x" 9)
    (by decide) (by decide) (by decide) (by decide) (by decide)

/-- C2 counterexample: a successful batch whose two entries share the
`(exec_version, date)` primary key.  `store_batch` succeeds, but only the
last of the two entries is visible afterwards — the upsert replaced the
first — so "all N entries of the batch become visible" fails even though
no insert failed. -/
theorem C2_counterexample :
    store_batch ⟨[], []⟩ [DiaryEntry.new 1 3 "aa" 0, DiaryEntry.new 1 3 "bb" 0] none
      = .ok ⟨[DiaryEntry.new 1 3 "bb" 0], [⟨1, 3, 1⟩]⟩ ∧
    DiaryEntry.new 1 3 "aa" 0 ∉
      entries_by_date_range ⟨[DiaryEntry.new 1 3 "bb" 0], [⟨1, 3, 1⟩]⟩ 3 3 ∧
    DiaryEntry.new 1 3 "bb" 0 ∈
      entries_by_date_range ⟨[DiaryEntry.new 1 3 "bb" 0], [⟨1, 3, 1⟩]⟩ 3 3 := by
  refine ⟨rfl, by decide, by decide⟩

/-- Destructing a successful `store_batch`: the committed store is the
left fold of the per-entry inserts. -/
theorem store_batch_ok_dest (st : Store) (entries : List DiaryEntry)
    (failAt : Option Nat) (st' : Store)
    (h : store_batch st entries failAt = .ok st') :
    st' = entries.foldl store_entry_internal st := by
  unfold store_batch at h
  split at h
  · split at h
    · cases h
    · injection h with h
      exact h.symm
  · injection h with h
    exact h.symm

/-- C2 (amended): `store_batch` opens one transaction, upserts every entry
row together with its metadata row, and commits.  For a batch whose
entries carry pairwise-distinct `(exec_version, date)` keys (entries
sharing a key resolve last-write-wins instead), success makes every entry
of the batch visible to `entries_by_date_range`; an insert failure
anywhere in the batch makes the whole call return the underlying error —
the transaction is dropped and rolled back, so the caller's store is
unchanged and no entry of the batch becomes visible. -/
theorem C2_amended_atomicity (st : Store) (entries : List DiaryEntry)
    (failAt : Option Nat)
    (hkeys : entries.Pairwise
      (fun a b => ¬(a.exec_version = b.exec_version ∧ a.date = b.date))) :
    (∀ st', store_batch st entries failAt = .ok st' →
        ∀ e ∈ entries, e ∈ entries_by_date_range st' e.date e.date) ∧
    (∀ i, failAt = some i → i < entries.length →
        store_batch st entries failAt = .error .Database) := by
  constructor
  · intro st' hok e he
    rw [store_batch_ok_dest st entries failAt st' hok]
    rw [mem_entries_by_date_range]
    exact ⟨rows_foldl_mem entries st e he hkeys, le_refl _, le_refl _⟩
  · intro i hi hlen
    subst hi
    simp only [store_batch]
    rw [if_pos hlen]

/-- Witness for C2 (amended): a two-entry batch with distinct dates; both
entries are visible after the successful batch. -/
theorem C2_amended_witness :
    DiaryEntry.new 1 1 "a" 0 ∈
      entries_by_date_range
        ⟨[DiaryEntry.new 1 1 "a" 0, DiaryEntry.new 1 2 "b" 0],
         [⟨1, 1, 1⟩, ⟨1, 2, 1⟩]⟩ 1 1 :=
  (C2_amended_atomicity ⟨[], []⟩
      [DiaryEntry.new 1 1 "a" 0, DiaryEntry.new 1 2 "b" 0] none (by decide)).1
    ⟨[DiaryEntry.new 1 1 "a" 0, DiaryEntry.new 1 2 "b" 0], [⟨1, 1, 1⟩, ⟨1, 2, 1⟩]⟩
    rfl (DiaryEntry.new 1 1 "a" 0) (by decide)

set_option maxRecDepth 8192 in
/-- C3 counterexample: run 1 stores `(date 5, "x")` at version 1.  Run 2
sees the same file, computes `next_version = 2`, finds everything a
duplicate and stores nothing, so `latest_exec_version()` is still 1.  Run
3 therefore computes `next_version = 2` AGAIN — the version run 2 already
assigned to its materialized entries — and (with a changed file) persists
rows at exec_version 2.  Assigned versions across the three runs are
1, 2, 2: not strictly increasing, and 2 is reused. -/
theorem C3_counterexample :
    get_latest_exec_version
        (synchronize [⟨some 5, some "x"⟩] ⟨[], []⟩ 5).store + 1 = 2 ∧
    (synchronize [⟨some 5, some "x"⟩]
        (synchronize [⟨some 5, some "x"⟩] ⟨[], []⟩ 5).store 6).result = .ok (5, 5) ∧
    (synchronize [⟨some 5, some "x"⟩]
        (synchronize [⟨some 5, some "x"⟩] ⟨[], []⟩ 5).store 6).store
      = (synchronize [⟨some 5, some "x"⟩] ⟨[], []⟩ 5).store ∧
    get_latest_exec_version
        (synchronize [⟨some 5, some "x"⟩]
          (synchronize [⟨some 5, some "x"⟩] ⟨[], []⟩ 5).store 6).store + 1 = 2 ∧
    ((synchronize [⟨some 5, some "y"⟩]
        (synchronize [⟨some 5, some "x"⟩]
          (synchronize [⟨some 5, some "x"⟩] ⟨[], []⟩ 5).store 6).store 7).store.rows.any
      (fun r => r.exec_version == 2)) = true := by
  refine ⟨by decide, by decide, by decide, by decide, by decide⟩

/-- Inverting a `synchronize` run that returned `ok`: the resulting store
is the fold of the per-entry inserts over the persisted batch, and every
entry of that batch was materialized at `latest_exec_version(st) + 1`. -/
theorem synchronize_ok_inversion (files : List SourceFile) (st : Store)
    (now : Nat) (span : Nat × Nat) (st' : Store) (batch : List DiaryEntry)
    (h : synchronize files st now = ⟨.ok span, st', [batch]⟩) :
    st' = batch.foldl store_entry_internal st ∧
    ∀ e ∈ batch, e.exec_version = get_latest_exec_version st + 1 := by
  simp only [synchronize] at h
  split at h
  · simp at h
  · split at h
    · rename_i lastE firstE heqL heqF
      split at h
      · simp at h
      · rename_i st1 calls heqS
        simp only [SyncOutcome.mk.injEq, SyncResult.ok.injEq] at h
        obtain ⟨-, hst1, hcalls⟩ := h
        unfold store_entries at heqS
        split at heqS
        · simp at heqS
        · simp only [Prod.mk.injEq] at heqS
          obtain ⟨hsb, hnew⟩ := heqS
          rw [← hnew] at hcalls
          simp only [List.cons.injEq, and_true] at hcalls
          subst hcalls
          constructor
          · rw [← hst1]
            exact store_batch_ok_dest _ _ _ _ hsb
          · intro e he
            have he' := List.mem_of_mem_filter he
            exact process_files_version files _ now e he'
    · simp at h

/-- C3 (amended): `latest_exec_version()` returns 0 when the store is
empty and otherwise the maximum stored `exec_version` (upper bound and
attained); every entry a run materializes carries
`next_version = latest_exec_version() + 1`; a run that persists a
non-empty batch raises `latest_exec_version` to exactly `next_version`,
so versions strictly increase across runs that persist entries; but a run
that persists nothing (all duplicates) leaves the store — and hence
`latest_exec_version` — unchanged, so the next run assigns the same
`next_version` again. -/
theorem C3_amended_version_assignment :
    get_latest_exec_version ⟨[], []⟩ = 0 ∧
    (∀ (st : Store), ∀ r ∈ st.rows, r.exec_version ≤ get_latest_exec_version st) ∧
    (∀ (st : Store), st.rows ≠ [] →
        ∃ r ∈ st.rows, r.exec_version = get_latest_exec_version st) ∧
    (∀ (files : List SourceFile) (st : Store) (now : Nat) (e : DiaryEntry),
        e ∈ (process_files files (get_latest_exec_version st + 1) now).1 →
        e.exec_version = get_latest_exec_version st + 1) ∧
    (∀ (files : List SourceFile) (st : Store) (now : Nat) (span : Nat × Nat)
        (st' : Store) (batch : List DiaryEntry),
        synchronize files st now = ⟨.ok span, st', [batch]⟩ →
        (batch = [] → st' = st) ∧
        (batch ≠ [] →
          get_latest_exec_version st' = get_latest_exec_version st + 1)) := by
  refine ⟨rfl, fun st r hr => latest_ge st r hr, fun st h => latest_attained st h,
    fun files st now e he => process_files_version files _ now e he, ?_⟩
  intro files st now span st' batch h
  obtain ⟨hst', hver⟩ := synchronize_ok_inversion files st now span st' batch h
  constructor
  · intro hb
    rw [hst', hb]
    rfl
  · intro hb
    have hlast : batch.getLast hb ∈ (batch.foldl store_entry_internal st).rows :=
      getLast_mem_rows_foldl batch st hb
    have hlastv : (batch.getLast hb).exec_version =
        get_latest_exec_version st + 1 :=
      hver _ (List.getLast_mem hb)
    have hge : get_latest_exec_version st + 1 ≤ get_latest_exec_version st' := by
      rw [hst', ← hlastv]
      exact latest_ge _ _ hlast
    have hne' : st'.rows ≠ [] := by
      intro hnil
      rw [hst'] at hnil
      rw [hnil] at hlast
      cases hlast
    obtain ⟨r, hr, hrv⟩ := latest_attained st' hne'
    have hle : get_latest_exec_version st' ≤ get_latest_exec_version st + 1 := by
      rw [← hrv]
      have hr' : r ∈ (batch.foldl store_entry_internal st).rows := by
        rw [← hst']
        exact hr
      rcases rows_foldl_subset batch st r hr' with h1 | h1
      · have := latest_ge st r h1
        omega
      · rw [hver r h1]
    exact le_antisymm hle hge

/-- Witness for C3 (amended) at a concrete input: one run persisting one
entry raises `latest_exec_version` from 0 to 1. -/
theorem C3_amended_witness :
    get_latest_exec_version
        (⟨[⟨1, 5, "x", 5, some 5⟩], [⟨1, 5, 1⟩]⟩ : Store) =
      get_latest_exec_version (⟨[], []⟩ : Store) + 1 :=
  (C3_amended_version_assignment.2.2.2.2 [⟨some 5, some "x"⟩] ⟨[], []⟩ 5 (5, 5)
      ⟨[⟨1, 5, "x", 5, some 5⟩], [⟨1, 5, 1⟩]⟩ [⟨1, 5, "x", 5, some 5⟩]
      (by decide)).2 (by decide)

set_option maxRecDepth 8192 in
/-- C6 counterexample: the collection holds one perfectly valid file
(date 1, content `"x"`) and one file consisting solely of a front-matter
block.  The front-matter-only file passes per-file validation (its RAW
content is non-empty) and materializes with content that is empty after
normalization; `StorageManager::store_entries` then rejects the whole
batch with `ContentIntegrity("Empty content")`, so `synchronize()` aborts
and even the valid file's entry is not persisted — refuting "a single
malformed source file never causes synchronize() to abort or block
persistence of the remaining entries". -/
theorem C6_counterexample :
    (synchronize [⟨some 1, some "x"⟩, ⟨some 2, some "---\ntags: a\n---\n"⟩]
        ⟨[], []⟩ 5).result = .err (.ContentIntegrity "Empty content") ∧
    (synchronize [⟨some 1, some "x"⟩, ⟨some 2, some "---\ntags: a\n---\n"⟩]
        ⟨[], []⟩ 5).store = ⟨[], []⟩ ∧
    (synchronize [⟨some 1, some "x"⟩, ⟨some 2, some "---\ntags: a\n---\n"⟩]
        ⟨[], []⟩ 5).batchCalls = [] := by
  refine ⟨by decide, by decide, by decide⟩

/-- C6 (amended): per-file materialization failures (read error,
whitespace-only raw content, unextractable date) are collected into the
side list and do not abort the run: whenever at least one file
materializes and every materialized entry still has non-whitespace
content after normalization, `synchronize()` completes with `ok`,
persisting exactly the deduplicated valid subset.  (A file whose content
becomes empty only after front-matter stripping evades the per-file check
and aborts the whole run at the batch pre-validation instead.) -/
theorem C6_amended_valid_subset_persists (files : List SourceFile)
    (st : Store) (now : Nat) (ents : List DiaryEntry)
    (lastE firstE : DiaryEntry)
    (hfe : files.isEmpty = false)
    (hents : (process_files files (get_latest_exec_version st + 1) now).1 = ents)
    (hlast : ents.getLast? = some lastE) (hfirst : ents.head? = some firstE)
    (hvalid : ∀ e ∈ ents, ¬(rustTrim e.content = "")) :
    (synchronize files st now).result = .ok (lastE.date, firstE.date) ∧
    (synchronize files st now).batchCalls =
      [ents.filter (fun e =>
        !((entries_by_date_range st lastE.date firstE.date).any
          (fun se => se.date == e.date && se.content == e.content)))] := by
  rw [synchronize_eq files st now ents lastE firstE hfe hents hlast hfirst]
  have hfind : (ents.filter (fun e =>
      !((entries_by_date_range st lastE.date firstE.date).any
        (fun se => se.date == e.date && se.content == e.content)))).find?
        validate_entry = none := by
    rw [List.find?_eq_none]
    intro e he
    have he' := List.mem_of_mem_filter he
    simp only [validate_entry, beq_iff_eq]
    exact fun hc => hvalid e he' (by exact_mod_cast hc)
  simp only [store_entries, hfind, store_batch]
  exact ⟨trivial, trivial⟩

/-- Witness for C6 (amended): one valid file plus one file whose date is
not extractable; the run completes with `ok` over the valid file's span. -/
theorem C6_amended_witness :
    (synchronize [⟨some 1, some "x"⟩, ⟨none, some "z"⟩] ⟨[], []⟩ 5).result
      = .ok (1, 1) :=
  (C6_amended_valid_subset_persists [⟨some 1, some "x"⟩, ⟨none, some "z"⟩]
    ⟨[], []⟩ 5 [DiaryEntry.new 1 1 "x" 5] (DiaryEntry.new 1 1 "x" 5)
    (DiaryEntry.new 1 1 "x" 5)
    (by decide) (by decide) (by decide) (by decide) (by decide)).1

/-- Propositional reading of `sameKey`. -/
theorem sameKey_iff (e r : DiaryEntry) :
    sameKey e r = true ↔ r.exec_version = e.exec_version ∧ r.date = e.date := by
  simp [sameKey]

/-- Propositional reading of `sameKeyMeta`. -/
theorem sameKeyMeta_iff (e : DiaryEntry) (m : MetaRow) :
    sameKeyMeta e m = true ↔ m.exec_version = e.exec_version ∧ m.date = e.date := by
  simp [sameKeyMeta]

/-- The lockstep invariant between entry rows and metadata rows: every
entry row owns exactly one metadata row with its `(exec_version, date)`
key, that metadata row records the entry's word count, and every metadata
row has an owning entry row (the foreign-key invariant). -/
def lockstep (st : Store) : Prop :=
  (∀ r ∈ st.rows, st.meta.countP (fun m => sameKeyMeta r m) = 1) ∧
  (∀ r ∈ st.rows, ∀ m ∈ st.meta, sameKeyMeta r m = true →
      m.word_count = r.word_count) ∧
  (∀ m ∈ st.meta, ∃ r ∈ st.rows, sameKeyMeta r m = true)

/-- Unfolding `store_entry_internal` into its two table updates. -/
theorem store_entry_internal_eq (st : Store) (e : DiaryEntry) :
    store_entry_internal st e =
      ⟨st.rows.filter (fun r => !(sameKey e r)) ++ [e],
       (if st.rows.any (sameKey e) then
          st.meta.filter (fun m => !(sameKeyMeta e m))
        else st.meta)
         ++ [⟨e.exec_version, e.date, e.word_count⟩]⟩ := rfl

/-- Under the foreign-key half of the invariant, a key with no entry row
has no metadata row either. -/
theorem no_meta_of_no_row (st : Store) (e : DiaryEntry)
    (h3 : ∀ m ∈ st.meta, ∃ r ∈ st.rows, sameKeyMeta r m = true)
    (hno : st.rows.any (sameKey e) = false) :
    ∀ m ∈ st.meta, sameKeyMeta e m = false := by
  intro m hm
  by_contra hkm
  rw [Bool.not_eq_false, sameKeyMeta_iff] at hkm
  obtain ⟨r, hr, hrm⟩ := h3 m hm
  rw [sameKeyMeta_iff] at hrm
  have hk : sameKey e r = true := by
    rw [sameKey_iff]
    exact ⟨hrm.1 ▸ hkm.1, hrm.2 ▸ hkm.2⟩
  have := List.any_eq_true.mpr ⟨r, hr, hk⟩
  rw [hno] at this
  cases this

/-- Core step: one upsert (entry row plus cascade plus metadata row)
preserves the lockstep invariant, with the post-cascade metadata prefix
abstracted as `front`. -/
theorem lockstep_insert_aux (rows : List DiaryEntry) (meta : List MetaRow)
    (e : DiaryEntry) (front : List MetaRow)
    (hfrontSub : ∀ m ∈ front, m ∈ meta)
    (hfrontMem : ∀ m ∈ meta, sameKeyMeta e m = false → m ∈ front)
    (hfrontZero : front.countP (fun m => sameKeyMeta e m) = 0)
    (hfrontKeep : ∀ r : DiaryEntry, sameKey e r = false →
        front.countP (fun m => sameKeyMeta r m) =
          meta.countP (fun m => sameKeyMeta r m))
    (h1 : ∀ r ∈ rows, meta.countP (fun m => sameKeyMeta r m) = 1)
    (h2 : ∀ r ∈ rows, ∀ m ∈ meta, sameKeyMeta r m = true →
        m.word_count = r.word_count)
    (h3 : ∀ m ∈ meta, ∃ r ∈ rows, sameKeyMeta r m = true) :
    lockstep ⟨rows.filter (fun r => !(sameKey e r)) ++ [e],
              front ++ [⟨e.exec_version, e.date, e.word_count⟩]⟩ := by
  have hmekey : ∀ r : DiaryEntry,
      sameKeyMeta r ⟨e.exec_version, e.date, e.word_count⟩ = true ↔
        r.exec_version = e.exec_version ∧ r.date = e.date := by
    intro r
    rw [sameKeyMeta_iff]
    constructor
    · exact fun h => ⟨h.1.symm, h.2.symm⟩
    · exact fun h => ⟨h.1.symm, h.2.symm⟩
  refine ⟨?_, ?_, ?_⟩
  · intro r hr
    rcases List.mem_append.mp hr with hr' | hr'
    · have hrow := (List.mem_filter.mp hr').1
      have hkey : sameKey e r = false := by
        have := (List.mem_filter.mp hr').2
        simpa using this
      rw [List.countP_append, hfrontKeep r hkey, h1 r hrow]
      have hzero : List.countP (fun m => sameKeyMeta r m)
          [(⟨e.exec_version, e.date, e.word_count⟩ : MetaRow)] = 0 := by
        simp only [List.countP_singleton]
        have : sameKeyMeta r ⟨e.exec_version, e.date, e.word_count⟩ = false := by
          by_contra hx
          rw [Bool.not_eq_false, hmekey r] at hx
          have hk : sameKey e r = true := (sameKey_iff e r).mpr hx
          rw [hkey] at hk
          cases hk
        rw [this]
        rfl
      omega
    · have hre : r = e := List.mem_singleton.mp hr'
      subst hre
      rw [List.countP_append, hfrontZero]
      simp only [List.countP_singleton]
      have : sameKeyMeta r ⟨r.exec_version, r.date, r.word_count⟩ = true := by
        rw [hmekey r]
        exact ⟨rfl, rfl⟩
      rw [this]
      rfl
  · intro r hr m hm hmatch
    rcases List.mem_append.mp hr with hr' | hr'
    · have hrow := (List.mem_filter.mp hr').1
      have hkey : sameKey e r = false := by
        have := (List.mem_filter.mp hr').2
        simpa using this
      rcases List.mem_append.mp hm with hm' | hm'
      · exact h2 r hrow m (hfrontSub m hm') hmatch
      · have hmme := List.mem_singleton.mp hm'
        subst hmme
        rw [hmekey r] at hmatch
        have hk : sameKey e r = true := (sameKey_iff e r).mpr hmatch
        rw [hkey] at hk
        cases hk
    · have hre : r = e := List.mem_singleton.mp hr'
      subst hre
      rcases List.mem_append.mp hm with hm' | hm'
      · have : ∀ x ∈ front, ¬((fun m => sameKeyMeta r m) x = true) :=
          List.countP_eq_zero.mp hfrontZero
        exact absurd hmatch (this m hm')
      · have hmme := List.mem_singleton.mp hm'
        subst hmme
        rfl
  · intro m hm
    rcases List.mem_append.mp hm with hm' | hm'
    · obtain ⟨r0, hr0, hr0m⟩ := h3 m (hfrontSub m hm')
      have hk : sameKey e r0 = false := by
        by_contra hx
        rw [Bool.not_eq_false, sameKey_iff] at hx
        have hkm : sameKeyMeta e m = true := by
          rw [sameKeyMeta_iff]
          rw [sameKeyMeta_iff] at hr0m
          exact ⟨hx.1 ▸ hr0m.1, hx.2 ▸ hr0m.2⟩
        have := List.countP_eq_zero.mp hfrontZero m hm'
        exact this hkm
      refine ⟨r0, List.mem_append.mpr (Or.inl ?_), hr0m⟩
      exact List.mem_filter.mpr ⟨hr0, by simp [hk]⟩
    · have hmme := List.mem_singleton.mp hm'
      subst hmme
      refine ⟨e, List.mem_append.mpr (Or.inr (List.mem_singleton.mpr rfl)), ?_⟩
      rw [hmekey e]
      exact ⟨rfl, rfl⟩

/-- One upsert preserves the lockstep invariant. -/
theorem lockstep_store_entry_internal (st : Store) (e : DiaryEntry)
    (h : lockstep st) : lockstep (store_entry_internal st e) := by
  obtain ⟨h1, h2, h3⟩ := h
  rw [store_entry_internal_eq]
  by_cases hhad : st.rows.any (sameKey e) = true
  · rw [if_pos hhad]
    refine lockstep_insert_aux st.rows st.meta e _ ?_ ?_ ?_ ?_ h1 h2 h3
    · exact fun m hm => (List.mem_filter.mp hm).1
    · intro m hm hkm
      exact List.mem_filter.mpr ⟨hm, by simp [hkm]⟩
    · rw [List.countP_eq_zero]
      intro m hm
      have := (List.mem_filter.mp hm).2
      simpa using this
    · intro r hkey
      rw [List.countP_filter]
      apply List.countP_congr
      intro m hm
      by_cases hp : sameKeyMeta r m = true
      · have hkmF : sameKeyMeta e m = false := by
          by_contra hx
          rw [Bool.not_eq_false, sameKeyMeta_iff] at hx
          rw [sameKeyMeta_iff] at hp
          have : sameKey e r = true := by
            rw [sameKey_iff]
            exact ⟨hp.1 ▸ hx.1, hp.2 ▸ hx.2⟩
          rw [hkey] at this
          cases this
        simp [hp, hkmF]
      · simp only [Bool.not_eq_true] at hp
        simp [hp]
  · have hno : st.rows.any (sameKey e) = false := by
      simpa using hhad
    rw [if_neg hhad]
    refine lockstep_insert_aux st.rows st.meta e st.meta
      (fun m hm => hm) (fun m hm _ => hm) ?_
      (fun r _ => rfl) h1 h2 h3
    rw [List.countP_eq_zero]
    intro m hm
    have := no_meta_of_no_row st e h3 hno m hm
    simp [this]

/-- The whole batch fold preserves the lockstep invariant. -/
theorem lockstep_foldl (l : List DiaryEntry) :
    ∀ st : Store, lockstep st → lockstep (l.foldl store_entry_internal st) := by
  induction l with
  | nil => exact fun st h => h
  | cons e es ih =>
    intro st h
    exact ih _ (lockstep_store_entry_internal st e h)

/-- C9: `word_count()` counts maximal runs of non-whitespace characters
(`"One two three\nfour five"` has 5), is a pure function of the entry's
normalized content, and `store_batch` writes, for every entry it upserts,
a metadata row carrying exactly that word count in the same transaction —
so a store satisfying the entry/metadata lockstep invariant still
satisfies it after any successful `store_batch`. -/
theorem C9_word_count_and_metadata_lockstep :
    (DiaryEntry.new 1 0 "One two three\nfour five" 7).word_count = 5 ∧
    (∀ a b : DiaryEntry, a.content = b.content → a.word_count = b.word_count) ∧
    (∀ (st : Store) (entries : List DiaryEntry) (failAt : Option Nat)
        (st' : Store), lockstep st → store_batch st entries failAt = .ok st' →
        lockstep st') := by
  refine ⟨by decide, ?_, ?_⟩
  · intro a b hab
    unfold DiaryEntry.word_count
    rw [hab]
  · intro st entries failAt st' hls hok
    rw [store_batch_ok_dest st entries failAt st' hok]
    exact lockstep_foldl entries st hls

/-- Witness for C9 at a concrete input: the two-word entry stored into the
empty store yields a store satisfying the lockstep invariant. -/
theorem C9_witness :
    lockstep ⟨[DiaryEntry.new 1 5 "ab cd" 0], [⟨1, 5, 2⟩]⟩ :=
  C9_word_count_and_metadata_lockstep.2.2 ⟨[], []⟩ [DiaryEntry.new 1 5 "ab cd" 0]
    none ⟨[DiaryEntry.new 1 5 "ab cd" 0], [⟨1, 5, 2⟩]⟩
    (by refine ⟨?_, ?_, ?_⟩ <;> intro x hx <;> cases hx)
    rfl
